import Mathlib

/-!
Shallow embedding of the vector-addition benchmark from the repository
notebook (`vector_addition_parallel.cu` and `vector_addition_sequential.cpp`).

Single-precision floating-point values are modelled as exact rationals:
every value that occurs in the program (the fills 1.0 and 2.0, the
value-initialised 0.0, and the sums 3.0) is a small integer that is exactly
representable in binary floating point, and the spec itself notes that the
additions involved are exact, so rational arithmetic coincides with the
float arithmetic performed by the programs on all values in play.
-/

namespace VectorAdd

/-- The CUDA block dimension used by the parallel program: `blockSize(256, 1, 1)`. -/
def blockDim : Nat := 256

/-- The grid dimension computed by the parallel program:
`gridSize((size + 255) / 256, 1, 1)` with truncating integer division. -/
def gridSize (n : Nat) : Nat := (n + 255) / 256

/-- The global index each CUDA thread computes:
`int i = threadIdx.x + blockDim.x * blockIdx.x;`. -/
def globalIndex (blockIdx threadIdx : Nat) : Nat := threadIdx + blockDim * blockIdx

/-- Checked read of a device buffer cell: `none` models an out-of-range access. -/
def getChecked (xs : List ℚ) (i : Nat) : Option ℚ :=
  if h : i < xs.length then some (xs.get ⟨i, h⟩) else none

/-- Checked write of a device buffer cell: `none` models an out-of-range write. -/
def setChecked (xs : List ℚ) (i : Nat) (v : ℚ) : Option (List ℚ) :=
  if i < xs.length then some (xs.set i v) else none

/-- One CUDA thread of the kernel `vectorAddParallel`: it computes its global
index `i` and performs `c[i] = a[i] + b[i]` only when `i < n`. -/
def vectorAddParallel (a b : List ℚ) (n : Nat) (blockIdx threadIdx : Nat)
    (c : List ℚ) : Option (List ℚ) :=
  let i := globalIndex blockIdx threadIdx
  if i < n then do
    let x ← getChecked a i
    let y ← getChecked b i
    setChecked c i (x + y)
  else
    some c

/-- All (blockIdx, threadIdx) pairs of the launch
`vectorAddParallel<<<gridSize, blockSize>>>`: `gridSize n` blocks of
`blockDim` threads each. -/
def threadList (n : Nat) : List (Nat × Nat) :=
  (List.range (gridSize n)).flatMap
    (fun blk => (List.range blockDim).map (fun t => (blk, t)))

/-- The whole kernel launch: every thread runs on the output buffer.  The
threads write pairwise-distinct cells, so sequencing them in any fixed order
is faithful to the data-parallel execution. -/
def launchKernel (a b : List ℚ) (n : Nat) (c : List ℚ) : Option (List ℚ) :=
  (threadList n).foldl
    (fun acc p => acc.bind (vectorAddParallel a b n p.1 p.2)) (some c)

/-- The sequential adder `vectorAddSequential`: `int n = a.size();` followed by
`for (int i = 0; i < n; ++i) c[i] = a[i] + b[i];`.  `List.set` past the end of
`c` is a no-op, and reads use the value actually stored (the C++ program is
only defined when `a.size() <= b.size()` and `a.size() <= c.size()`). -/
def vectorAddSequential (a b c : List ℚ) : List ℚ :=
  (List.range a.length).foldl (fun acc i => acc.set i (a.getD i 0 + b.getD i 0)) c

/-- The vector length used by both programs: `int size = 1000 * 1000;`. -/
def size : Nat := 1000 * 1000

/-- Host input A: `std::vector<float> h_a(size, 1.0f);`. -/
def h_a (n : Nat) : List ℚ := List.replicate n 1

/-- Host input B: `std::vector<float> h_b(size, 2.0f);`. -/
def h_b (n : Nat) : List ℚ := List.replicate n 2

/-- Host output C: `std::vector<float> h_c(size);` — value-initialised, so
every element is `0.0f`. -/
def h_c (n : Nat) : List ℚ := List.replicate n 0

/-- Observable operational events of the parallel program, in program order.
Device buffers are numbered 0 (`d_a`), 1 (`d_b`), 2 (`d_c`). -/
inductive Event where
  | allocDevice : Nat → Event
  | memcpyHostToDevice : Nat → Event
  | timerStart : Event
  | kernelLaunch : Event
  | deviceSynchronize : Event
  | getLastError : Event
  | memcpyDeviceToHost : Nat → Event
  | timerEnd : Event
  | freeDevice : Nat → Event
  deriving DecidableEq, Repr

/-- Result of one program run: the ordered event trace, the lines printed to
standard output and standard error, the process exit status, and the host
output vector after the run (`none` when it was never transferred back). -/
structure RunResult where
  events : List Event
  stdout : List String
  stderr : List String
  exitCode : Nat
  output : Option (List ℚ)
  deriving Repr

/-- The `main` of `vector_addition_parallel.cu` with the vector length `n` as
a parameter (the program fixes `n = size`).  `devErr` is the device error
status observed by `cudaGetLastError()` after `cudaDeviceSynchronize()`
(`none` = `cudaSuccess`, `some msg` = failure with description `msg`), and
`duration` is the measured elapsed time in milliseconds. -/
def parallelMainN (n : Nat) (devErr : Option String) (duration : Nat) : RunResult :=
  let preEvents : List Event :=
    [.allocDevice 0, .allocDevice 1, .allocDevice 2,
     .memcpyHostToDevice 0, .memcpyHostToDevice 1,
     .timerStart, .kernelLaunch, .deviceSynchronize, .getLastError]
  match devErr with
  | some msg =>
      { events := preEvents
        stdout := []
        stderr := ["CUDA error: " ++ msg]
        exitCode := 1
        output := none }
  | none =>
      { events := preEvents ++
          [.memcpyDeviceToHost 2, .timerEnd,
           .freeDevice 0, .freeDevice 1, .freeDevice 2]
        stdout := ["Parallel Vector Addition took " ++ toString duration ++ " milliseconds."]
        stderr := []
        exitCode := 0
        output := launchKernel (h_a n) (h_b n) n (h_c n) }

/-- The parallel program as shipped, with `size = 1000 * 1000`. -/
def parallelMain (devErr : Option String) (duration : Nat) : RunResult :=
  parallelMainN size devErr duration

/-- The `main` of `vector_addition_sequential.cpp` with the vector length `n`
as a parameter (the program fixes `n = size`); it has no error path. -/
def sequentialMainN (n : Nat) (duration : Nat) : RunResult :=
  { events := [.timerStart, .timerEnd]
    stdout := ["Sequential Vector Addition took " ++ toString duration ++ " milliseconds."]
    stderr := []
    exitCode := 0
    output := some (vectorAddSequential (h_a n) (h_b n) (h_c n)) }

/-- The sequential program as shipped, with `size = 1000 * 1000`. -/
def sequentialMain (duration : Nat) : RunResult :=
  sequentialMainN size duration

/-- Whether some thread of the list writes cell `j` of a length-`n` launch. -/
def covers (L : List (Nat × Nat)) (n j : Nat) : Prop :=
  j < n ∧ ∃ p ∈ L, globalIndex p.1 p.2 = j

instance (L : List (Nat × Nat)) (n j : Nat) : Decidable (covers L n j) := by
  unfold covers; infer_instance

/-! ### Helper lemmas -/

/-- Reading back through a `List.set`. -/
lemma getD_set (c : List ℚ) (i j : Nat) (v : ℚ) :
    (c.set i v).getD j 0 = if i = j ∧ j < c.length then v else c.getD j 0 := by
  simp only [List.getD_eq_getElem?_getD, List.getElem?_set]
  by_cases hij : i = j
  · subst hij
    by_cases hi : i < c.length
    · simp [hi]
    · simp [hi, List.getElem?_eq_none (le_of_not_lt hi)]
  · simp [hij]

lemma getChecked_eq_of_lt {xs : List ℚ} {i : Nat} (h : i < xs.length) :
    getChecked xs i = some (xs.getD i 0) := by
  simp [getChecked, h, List.getD_eq_getElem _ _ h]

lemma setChecked_eq_of_lt {xs : List ℚ} {i : Nat} (h : i < xs.length) (v : ℚ) :
    setChecked xs i v = some (xs.set i v) := by
  simp [setChecked, h]

/-- A thread whose global index is in range performs its guarded write. -/
lemma vectorAddParallel_of_lt {a b c : List ℚ} {n blk t : Nat}
    (hi : globalIndex blk t < n)
    (ha : n ≤ a.length) (hb : n ≤ b.length) (hc : n ≤ c.length) :
    vectorAddParallel a b n blk t c =
      some (c.set (globalIndex blk t)
        (a.getD (globalIndex blk t) 0 + b.getD (globalIndex blk t) 0)) := by
  have hia : globalIndex blk t < a.length := lt_of_lt_of_le hi ha
  have hib : globalIndex blk t < b.length := lt_of_lt_of_le hi hb
  have hic : globalIndex blk t < c.length := lt_of_lt_of_le hi hc
  simp [vectorAddParallel, hi, getChecked_eq_of_lt hia, getChecked_eq_of_lt hib,
    setChecked_eq_of_lt hic]

/-- A thread whose global index is out of range leaves the buffer untouched. -/
lemma vectorAddParallel_of_ge {a b c : List ℚ} {n blk t : Nat}
    (hi : ¬ globalIndex blk t < n) :
    vectorAddParallel a b n blk t c = some c := by
  simp [vectorAddParallel, hi]

lemma covers_cons {p : Nat × Nat} {L : List (Nat × Nat)} {n j : Nat} :
    covers (p :: L) n j ↔ (j < n ∧ globalIndex p.1 p.2 = j) ∨ covers L n j := by
  simp only [covers, List.mem_cons]
  constructor
  · rintro ⟨hj, q, hq | hq, hval⟩
    · exact Or.inl ⟨hj, hq ▸ hval⟩
    · exact Or.inr ⟨hj, q, hq, hval⟩
  · rintro (⟨hj, hval⟩ | ⟨hj, q, hq, hval⟩)
    · exact ⟨hj, p, Or.inl rfl, hval⟩
    · exact ⟨hj, q, Or.inr hq, hval⟩

/-- Folding the kernel threads over a buffer: the fold never fails, preserves
the buffer length, and sets exactly the covered cells to the pairwise sum. -/
lemma launch_fold (a b : List ℚ) (n : Nat) (L : List (Nat × Nat)) (c : List ℚ)
    (ha : n ≤ a.length) (hb : n ≤ b.length) (hc : n ≤ c.length) :
    ∃ r, L.foldl (fun acc p => acc.bind (vectorAddParallel a b n p.1 p.2)) (some c) = some r ∧
      r.length = c.length ∧
      ∀ j, r.getD j 0 = if covers L n j then a.getD j 0 + b.getD j 0 else c.getD j 0 := by
  induction L generalizing c with
  | nil =>
      refine ⟨c, rfl, rfl, fun j => ?_⟩
      have hnc : ¬ covers ([] : List (Nat × Nat)) n j := by simp [covers]
      rw [if_neg hnc]
  | cons p L ih =>
      by_cases hi : globalIndex p.1 p.2 < n
      · have hic : globalIndex p.1 p.2 < c.length := lt_of_lt_of_le hi hc
        obtain ⟨r, hr, hrlen, hrget⟩ :=
          ih (c.set (globalIndex p.1 p.2)
            (a.getD (globalIndex p.1 p.2) 0 + b.getD (globalIndex p.1 p.2) 0))
            (by rw [List.length_set]; exact hc)
        refine ⟨r, ?_, by rw [hrlen, List.length_set], fun j => ?_⟩
        · rw [List.foldl_cons]
          have hstep : vectorAddParallel a b n p.1 p.2 c =
              some (c.set (globalIndex p.1 p.2)
                (a.getD (globalIndex p.1 p.2) 0 + b.getD (globalIndex p.1 p.2) 0)) :=
            vectorAddParallel_of_lt hi ha hb hc
          simpa [hstep] using hr
        · rw [hrget j, getD_set]
          by_cases hcov : covers L n j
          · rw [if_pos hcov, if_pos (covers_cons.mpr (Or.inr hcov))]
          · rw [if_neg hcov]
            by_cases hij : globalIndex p.1 p.2 = j
            · subst hij
              rw [if_pos ⟨rfl, hic⟩, if_pos (covers_cons.mpr (Or.inl ⟨hi, rfl⟩))]
            · rw [if_neg (fun h => hij h.1), if_neg]
              intro hcov2
              rcases covers_cons.mp hcov2 with ⟨hj, hval⟩ | h2
              · exact hij hval
              · exact hcov h2
      · obtain ⟨r, hr, hrlen, hrget⟩ := ih c hc
        refine ⟨r, ?_, hrlen, fun j => ?_⟩
        · rw [List.foldl_cons]
          simpa [vectorAddParallel_of_ge (a := a) (b := b) (c := c) hi] using hr
        · rw [hrget j]
          have hiff : covers (p :: L) n j ↔ covers L n j := by
            rw [covers_cons]
            constructor
            · rintro (⟨hj, hval⟩ | h2)
              · exact absurd (hval ▸ hj) hi
              · exact h2
            · exact Or.inr
          simp only [hiff]

/-- Every index below `n` is covered by some launched thread: block `j / 256`,
thread `j % 256`. -/
lemma covers_threadList {n j : Nat} (hj : j < n) : covers (threadList n) n j := by
  refine ⟨hj, (j / 256, j % 256), ?_, ?_⟩
  · simp only [threadList, List.mem_flatMap, List.mem_map, List.mem_range]
    refine ⟨j / 256, ?_, j % 256, ?_, rfl⟩
    · have h2 : j / 256 ≤ (n - 1) / 256 := Nat.div_le_div_right (by omega)
      have h4 : gridSize n = (n - 1) / 256 + 1 := by
        unfold gridSize
        have h5 : n + 255 = (n - 1) + 256 := by omega
        rw [h5, Nat.add_div_right _ (by norm_num)]
      omega
    · exact Nat.mod_lt _ (by norm_num)
  · show j % 256 + blockDim * (j / 256) = j
    rw [show blockDim = 256 from rfl]
    exact Nat.mod_add_div j 256

/-- Full specification of the kernel launch: it never performs an
out-of-range access, preserves the buffer length, writes the pairwise sum at
every index below `n`, and leaves every other cell unchanged. -/
lemma launchKernel_spec (a b c : List ℚ) (n : Nat)
    (ha : n ≤ a.length) (hb : n ≤ b.length) (hc : n ≤ c.length) :
    ∃ r, launchKernel a b n c = some r ∧ r.length = c.length ∧
      (∀ j, j < n → r.getD j 0 = a.getD j 0 + b.getD j 0) ∧
      (∀ j, n ≤ j → r.getD j 0 = c.getD j 0) := by
  obtain ⟨r, hr, hlen, hget⟩ := launch_fold a b n (threadList n) c ha hb hc
  refine ⟨r, hr, hlen, fun j hj => ?_, fun j hj => ?_⟩
  · rw [hget j, if_pos (covers_threadList hj)]
  · rw [hget j, if_neg (fun hcov => absurd hcov.1 (not_lt.mpr hj))]

/-- Full specification of the sequential loop over `List.range n`. -/
lemma seqLoop_spec (a b c : List ℚ) (n : Nat) :
    ((List.range n).foldl (fun acc i => acc.set i (a.getD i 0 + b.getD i 0)) c).length
        = c.length ∧
    ∀ j, ((List.range n).foldl (fun acc i => acc.set i (a.getD i 0 + b.getD i 0)) c).getD j 0 =
      if j < n ∧ j < c.length then a.getD j 0 + b.getD j 0 else c.getD j 0 := by
  induction n with
  | zero =>
      refine ⟨rfl, fun j => ?_⟩
      simp
  | succ n ih =>
      obtain ⟨ihlen, ihget⟩ := ih
      rw [List.range_succ, List.foldl_append]
      simp only [List.foldl_cons, List.foldl_nil]
      refine ⟨by rw [List.length_set, ihlen], fun j => ?_⟩
      rw [getD_set, ihlen, ihget j]
      by_cases hnj : n = j
      · subst hnj
        by_cases hlen : n < c.length
        · rw [if_pos ⟨rfl, hlen⟩, if_pos ⟨by omega, hlen⟩]
        · rw [if_neg (fun h => hlen h.2), if_neg (fun h => hlen h.2),
            if_neg (fun h => hlen h.2)]
      · rw [if_neg (fun h => hnj h.1)]
        by_cases hj : j < n ∧ j < c.length
        · rw [if_pos hj, if_pos ⟨by omega, hj.2⟩]
        · rw [if_neg hj, if_neg (fun h => hj ⟨by omega, h.2⟩)]

/-- Full specification of the sequential adder: only the first `a.length`
cells of `c` (that exist) are overwritten, with the pairwise sums. -/
lemma vectorAddSequential_spec (a b c : List ℚ) :
    (vectorAddSequential a b c).length = c.length ∧
    ∀ j, (vectorAddSequential a b c).getD j 0 =
      if j < a.length ∧ j < c.length then a.getD j 0 + b.getD j 0 else c.getD j 0 :=
  seqLoop_spec a b c a.length

/-- Two lists of equal length whose `getD` views agree are equal. -/
lemma list_ext_getD {xs ys : List ℚ} (hlen : xs.length = ys.length)
    (h : ∀ j, j < xs.length → xs.getD j 0 = ys.getD j 0) : xs = ys := by
  refine List.ext_getElem hlen (fun j h1 h2 => ?_)
  have hj := h j h1
  rwa [List.getD_eq_getElem _ _ h1, List.getD_eq_getElem _ _ h2] at hj

lemma getD_replicate {n j : Nat} (v : ℚ) (hj : j < n) :
    (List.replicate n v).getD j 0 = v := by
  rw [List.getD_eq_getElem _ _ (by simpa using hj)]
  exact List.getElem_replicate ..

lemma length_h_a (n : Nat) : (h_a n).length = n := by
  simp only [h_a, List.length_replicate]

lemma length_h_b (n : Nat) : (h_b n).length = n := by
  simp only [h_b, List.length_replicate]

lemma length_h_c (n : Nat) : (h_c n).length = n := by
  simp only [h_c, List.length_replicate]

/-! ### Claim theorems -/

/-- C1: for both adders, after the computation completes, every valid index
`j < n` of the output holds exactly `a[j] + b[j]`; in particular, with `A`
filled with 1.0 and `B` filled with 2.0, every element of the output equals
exactly 3.0. -/
theorem C1_adders_correct (n : Nat) (a b c : List ℚ)
    (ha : a.length = n) (hb : b.length = n) (hc : c.length = n) :
    ((∀ j, j < n → (vectorAddSequential a b c).getD j 0 = a.getD j 0 + b.getD j 0) ∧
      ∃ r, launchKernel a b n c = some r ∧
        ∀ j, j < n → r.getD j 0 = a.getD j 0 + b.getD j 0) ∧
    ((∀ j, j < n → (vectorAddSequential (h_a n) (h_b n) (h_c n)).getD j 0 = 3) ∧
      ∃ r, launchKernel (h_a n) (h_b n) n (h_c n) = some r ∧
        ∀ j, j < n → r.getD j 0 = 3) := by
  have gen : ∀ a b c : List ℚ, a.length = n → b.length = n → c.length = n →
      (∀ j, j < n → (vectorAddSequential a b c).getD j 0 = a.getD j 0 + b.getD j 0) ∧
      ∃ r, launchKernel a b n c = some r ∧
        ∀ j, j < n → r.getD j 0 = a.getD j 0 + b.getD j 0 := by
    intro a b c ha hb hc
    refine ⟨fun j hj => ?_, ?_⟩
    · rw [(vectorAddSequential_spec a b c).2 j, if_pos ⟨by omega, by omega⟩]
    · obtain ⟨r, hr, -, hset, -⟩ :=
        launchKernel_spec a b c n (le_of_eq ha.symm) (le_of_eq hb.symm) (le_of_eq hc.symm)
      exact ⟨r, hr, hset⟩
  refine ⟨gen a b c ha hb hc, ?_⟩
  obtain ⟨hseq, r, hr, hpar⟩ :=
    gen (h_a n) (h_b n) (h_c n) (length_h_a n) (length_h_b n) (length_h_c n)
  have hone : ∀ j, j < n → (h_a n).getD j 0 = 1 := fun j hj => by
    simp only [h_a]; exact getD_replicate 1 hj
  have htwo : ∀ j, j < n → (h_b n).getD j 0 = 2 := fun j hj => by
    simp only [h_b]; exact getD_replicate 2 hj
  refine ⟨fun j hj => ?_, r, hr, fun j hj => ?_⟩
  · rw [hseq j hj, hone j hj, htwo j hj]; norm_num
  · rw [hpar j hj, hone j hj, htwo j hj]; norm_num

/-- Witness for C1 at the concrete length 2. -/
theorem C1_adders_correct_witness :
    (vectorAddSequential (h_a 2) (h_b 2) (h_c 2)).getD 0 0 = 3 :=
  (C1_adders_correct 2 (h_a 2) (h_b 2) (h_c 2)
    (length_h_a 2) (length_h_b 2) (length_h_c 2)).2.1 0 (by decide)

/-- C2: for the same inputs (equal length and identical element values), the
sequential adder and the parallel adder produce identical output sequences. -/
theorem C2_adders_equivalent (n : Nat) (a b c : List ℚ)
    (ha : a.length = n) (hb : b.length = n) (hc : c.length = n) :
    launchKernel a b n c = some (vectorAddSequential a b c) := by
  obtain ⟨r, hr, hlen, hset, -⟩ :=
    launchKernel_spec a b c n (le_of_eq ha.symm) (le_of_eq hb.symm) (le_of_eq hc.symm)
  rw [hr]
  congr 1
  refine list_ext_getD (by rw [hlen, (vectorAddSequential_spec a b c).1]) (fun j hj => ?_)
  have hjn : j < n := by rw [hlen, hc] at hj; exact hj
  rw [hset j hjn, (vectorAddSequential_spec a b c).2 j, if_pos ⟨by omega, by omega⟩]

/-- Witness for C2 at the concrete length 1. -/
theorem C2_adders_equivalent_witness :
    launchKernel (h_a 1) (h_b 1) 1 (h_c 1) =
      some (vectorAddSequential (h_a 1) (h_b 1) (h_c 1)) :=
  C2_adders_equivalent 1 (h_a 1) (h_b 1) (h_c 1)
    (length_h_a 1) (length_h_b 1) (length_h_c 1)

/-- C3: every execution unit writes `c[i] = a[i] + b[i]` only when its global
index is below `n`; for `n` that is not a multiple of the block size 256, no
out-of-range access occurs (the launch succeeds) and every valid index holds
the pairwise sum. -/
theorem C3_bounds_check (n : Nat) (a b c : List ℚ)
    (_hnm : n % blockDim ≠ 0)
    (ha : n ≤ a.length) (hb : n ≤ b.length) (hc : n ≤ c.length) :
    (∀ blk t d, ¬ globalIndex blk t < n → vectorAddParallel a b n blk t d = some d) ∧
    (∀ blk t, globalIndex blk t < n → vectorAddParallel a b n blk t c =
        some (c.set (globalIndex blk t)
          (a.getD (globalIndex blk t) 0 + b.getD (globalIndex blk t) 0))) ∧
    ∃ r, launchKernel a b n c = some r ∧ r.length = c.length ∧
      (∀ j, j < n → r.getD j 0 = a.getD j 0 + b.getD j 0) ∧
      (∀ j, n ≤ j → r.getD j 0 = c.getD j 0) := by
  refine ⟨fun blk t d hi => vectorAddParallel_of_ge hi,
    fun blk t hi => vectorAddParallel_of_lt hi ha hb hc, ?_⟩
  obtain ⟨r, hr, hlen, hset, hkeep⟩ := launchKernel_spec a b c n ha hb hc
  exact ⟨r, hr, hlen, hset, hkeep⟩

/-- Witness for C3 at the concrete non-multiple length 257. -/
theorem C3_bounds_check_witness :
    (launchKernel (h_a 257) (h_b 257) 257 (h_c 257)).isSome = true := by
  obtain ⟨r, hr, -⟩ := (C3_bounds_check 257 (h_a 257) (h_b 257) (h_c 257) (by decide)
    (le_of_eq (length_h_a 257).symm) (le_of_eq (length_h_b 257).symm)
    (le_of_eq (length_h_c 257).symm)).2.2
  rw [hr]; rfl

/-- C4: when the device reports an error after synchronization, the parallel
program prints a message containing the device-supplied description to
standard error and exits with a non-zero status without performing the
device-to-host transfer; otherwise each program exits with status 0 after
printing exactly the one line `<Mode> Vector Addition took <N> milliseconds.`. -/
theorem C4_error_and_success_paths (n d : Nat) (msg : String) :
    ((parallelMainN n (some msg) d).exitCode ≠ 0 ∧
      (parallelMainN n (some msg) d).stderr = ["CUDA error: " ++ msg] ∧
      Event.memcpyDeviceToHost 2 ∉ (parallelMainN n (some msg) d).events ∧
      (parallelMainN n (some msg) d).output = none) ∧
    ((parallelMainN n none d).exitCode = 0 ∧
      (parallelMainN n none d).stderr = [] ∧
      (parallelMainN n none d).stdout =
        ["Parallel Vector Addition took " ++ toString d ++ " milliseconds."]) ∧
    ((sequentialMainN n d).exitCode = 0 ∧
      (sequentialMainN n d).stderr = [] ∧
      (sequentialMainN n d).stdout =
        ["Sequential Vector Addition took " ++ toString d ++ " milliseconds."]) := by
  refine ⟨⟨by simp [parallelMainN], rfl, by simp [parallelMainN], rfl⟩,
    ⟨rfl, rfl, rfl⟩, ⟨rfl, rfl, rfl⟩⟩

/-- C5 counterexample: in the program as written, the device-to-host transfer
of the output buffer lies strictly inside the timed interval (between the
start and end timestamps), contradicting the claim that the end timestamp is
taken immediately after synchronization and that no transfer is timed. -/
theorem C5_counterexample :
    (parallelMain none 1).events.indexOf Event.timerStart <
        (parallelMain none 1).events.indexOf (Event.memcpyDeviceToHost 2) ∧
    (parallelMain none 1).events.indexOf (Event.memcpyDeviceToHost 2) <
        (parallelMain none 1).events.indexOf Event.timerEnd := by
  decide

/-- C5 (amended): the start timestamp is taken immediately before the kernel
launch and both host-to-device transfers lie before it (outside the timed
interval), but the end timestamp is taken only immediately after the
device-to-host transfer, so the timed interval contains the kernel launch,
the synchronization, the error check, and the device-to-host transfer. -/
theorem C5_timing_window (n d : Nat) :
    (parallelMainN n none d).events.indexOf Event.timerStart + 1 =
        (parallelMainN n none d).events.indexOf Event.kernelLaunch ∧
    (parallelMainN n none d).events.indexOf (Event.memcpyHostToDevice 0) <
        (parallelMainN n none d).events.indexOf Event.timerStart ∧
    (parallelMainN n none d).events.indexOf (Event.memcpyHostToDevice 1) <
        (parallelMainN n none d).events.indexOf Event.timerStart ∧
    (parallelMainN n none d).events.indexOf Event.kernelLaunch <
        (parallelMainN n none d).events.indexOf Event.deviceSynchronize ∧
    (parallelMainN n none d).events.indexOf Event.deviceSynchronize <
        (parallelMainN n none d).events.indexOf Event.getLastError ∧
    (parallelMainN n none d).events.indexOf Event.getLastError <
        (parallelMainN n none d).events.indexOf (Event.memcpyDeviceToHost 2) ∧
    (parallelMainN n none d).events.indexOf (Event.memcpyDeviceToHost 2) + 1 =
        (parallelMainN n none d).events.indexOf Event.timerEnd := by
  have he : (parallelMainN n none d).events =
      [.allocDevice 0, .allocDevice 1, .allocDevice 2,
       .memcpyHostToDevice 0, .memcpyHostToDevice 1,
       .timerStart, .kernelLaunch, .deviceSynchronize, .getLastError,
       .memcpyDeviceToHost 2, .timerEnd,
       .freeDevice 0, .freeDevice 1, .freeDevice 2] := rfl
  rw [he]
  decide

/-- C6 counterexample: on the device-error path the program returns without
freeing any of the three device buffers, so not every exit path releases them. -/
theorem C6_counterexample :
    Event.freeDevice 0 ∉ (parallelMain (some "unspecified launch failure") 1).events ∧
    Event.freeDevice 1 ∉ (parallelMain (some "unspecified launch failure") 1).events ∧
    Event.freeDevice 2 ∉ (parallelMain (some "unspecified launch failure") 1).events ∧
    (parallelMain (some "unspecified launch failure") 1).exitCode ≠ 0 := by
  refine ⟨?_, ?_, ?_, ?_⟩ <;> simp [parallelMain, parallelMainN]

/-- C6 (amended): the parallel program releases all three device regions on
the success path, after the results have been retrieved; on the error path it
returns with a non-zero status without releasing any of them. -/
theorem C6_free_on_success_only (n d : Nat) (msg : String) :
    (Event.freeDevice 0 ∈ (parallelMainN n none d).events ∧
     Event.freeDevice 1 ∈ (parallelMainN n none d).events ∧
     Event.freeDevice 2 ∈ (parallelMainN n none d).events ∧
     (parallelMainN n none d).events.indexOf (Event.memcpyDeviceToHost 2) <
       (parallelMainN n none d).events.indexOf (Event.freeDevice 0)) ∧
    (Event.freeDevice 0 ∉ (parallelMainN n (some msg) d).events ∧
     Event.freeDevice 1 ∉ (parallelMainN n (some msg) d).events ∧
     Event.freeDevice 2 ∉ (parallelMainN n (some msg) d).events ∧
     (parallelMainN n (some msg) d).exitCode = 1) := by
  refine ⟨⟨?_, ?_, ?_, ?_⟩, ⟨?_, ?_, ?_, rfl⟩⟩ <;> simp [parallelMainN]

/-- C7: the number of groups launched is `gridSize n = (n + 255) / 256` with
truncating division, and for every `n ≥ 0` this equals the mathematical
ceiling of `n / 256`. -/
theorem C7_gridSize_is_ceiling (n : Nat) :
    gridSize n = (n + 255) / 256 ∧ (gridSize n : ℤ) = ⌈(n : ℚ) / 256⌉ := by
  refine ⟨rfl, ?_⟩
  have h1 : n ≤ 256 * gridSize n := by unfold gridSize; omega
  have h2 : 256 * gridSize n < n + 256 := by unfold gridSize; omega
  have h1q : (n : ℚ) ≤ 256 * (gridSize n : ℚ) := by exact_mod_cast h1
  have h2q : 256 * (gridSize n : ℚ) < (n : ℚ) + 256 := by exact_mod_cast h2
  rw [eq_comm, Int.ceil_eq_iff]
  constructor
  · rw [lt_div_iff₀ (by norm_num : (0 : ℚ) < 256)]
    push_cast
    linarith
  · rw [div_le_iff₀ (by norm_num : (0 : ℚ) < 256)]
    push_cast
    linarith

/-- C8: for length 0 each adder produces an empty output and raises no error:
the sequential loop performs zero iterations (it returns its output vector
unchanged), the parallel launch performs no element writes, and both programs
exit with status 0. -/
theorem C8_empty_input (d : Nat) (b c : List ℚ) :
    vectorAddSequential [] b c = c ∧
    launchKernel (h_a 0) (h_b 0) 0 c = some c ∧
    (parallelMainN 0 none d).exitCode = 0 ∧
    (parallelMainN 0 none d).stderr = [] ∧
    (parallelMainN 0 none d).output = some [] ∧
    (sequentialMainN 0 d).exitCode = 0 ∧
    (sequentialMainN 0 d).output = some [] :=
  ⟨rfl, rfl, rfl, rfl, rfl, rfl, rfl⟩

/-- C9: the host output vector is value-initialised, so every element is 0
before either adder runs, and any element the adder does not write (index at
or above the input length) remains exactly 0. -/
theorem C9_value_initialized (n m : Nat) (hm : n ≤ m) :
    (∀ j, j < m → (h_c m).getD j 0 = 0) ∧
    (∀ j, n ≤ j → j < m →
      (vectorAddSequential (h_a n) (h_b n) (h_c m)).getD j 0 = 0) ∧
    ∃ r, launchKernel (h_a n) (h_b n) n (h_c m) = some r ∧
      ∀ j, n ≤ j → j < m → r.getD j 0 = 0 := by
  have hzero : ∀ j, j < m → (h_c m).getD j 0 = 0 := fun j hj => by
    simp only [h_c]; exact getD_replicate 0 hj
  refine ⟨hzero, fun j h1 h2 => ?_, ?_⟩
  · rw [(vectorAddSequential_spec _ _ _).2 j, if_neg, hzero j h2]
    rw [length_h_a]
    exact fun h => absurd h.1 (not_lt.mpr h1)
  · obtain ⟨r, hr, -, -, hkeep⟩ := launchKernel_spec (h_a n) (h_b n) (h_c m) n
      (le_of_eq (length_h_a n).symm) (le_of_eq (length_h_b n).symm)
      (le_trans hm (le_of_eq (length_h_c m).symm))
    exact ⟨r, hr, fun j h1 h2 => by rw [hkeep j h1, hzero j h2]⟩

/-- Witness for C9 at lengths 1 and 2. -/
theorem C9_value_initialized_witness : (h_c 2).getD 1 0 = 0 :=
  (C9_value_initialized 1 2 (by decide)).1 1 (by decide)

/-- C10: the sequential adder derives its iteration count solely from the
length of `a`: when `a.length ≤ b.length` and `a.length ≤ c.length`, exactly
the first `a.length` cells of `c` are overwritten, every later cell is left
unchanged, and the result does not depend on `b` beyond its first `a.length`
elements. -/
theorem C10_iteration_count_from_a (a b c : List ℚ)
    (_hb : a.length ≤ b.length) (hc : a.length ≤ c.length) :
    (vectorAddSequential a b c).length = c.length ∧
    (∀ j, j < a.length →
      (vectorAddSequential a b c).getD j 0 = a.getD j 0 + b.getD j 0) ∧
    (∀ j, a.length ≤ j → j < c.length →
      (vectorAddSequential a b c).getD j 0 = c.getD j 0) ∧
    (∀ b2 : List ℚ, (∀ j, j < a.length → b2.getD j 0 = b.getD j 0) →
      vectorAddSequential a b2 c = vectorAddSequential a b c) := by
  refine ⟨(vectorAddSequential_spec a b c).1, fun j hj => ?_, fun j h1 h2 => ?_,
    fun b2 hb2 => ?_⟩
  · rw [(vectorAddSequential_spec a b c).2 j, if_pos ⟨hj, by omega⟩]
  · rw [(vectorAddSequential_spec a b c).2 j,
      if_neg (fun h => absurd h.1 (not_lt.mpr h1))]
  · unfold vectorAddSequential
    apply List.foldl_ext
    intro acc i hi
    rw [List.mem_range] at hi
    rw [hb2 i hi]

/-- Witness for C10 with a length-1 input and a length-2 output vector. -/
theorem C10_iteration_count_from_a_witness :
    (vectorAddSequential (h_a 1) (h_b 1) (h_c 2)).getD 1 0 = 0 := by
  have h := (C10_iteration_count_from_a (h_a 1) (h_b 1) (h_c 2)
    (by simp [h_a, h_b]) (by simp [h_a, h_c])).2.2.1 1 (by simp [h_a]) (by simp [h_c])
  rw [h]
  simp only [h_c]
  exact getD_replicate 0 (by decide)

end VectorAdd
